import Mathlib

/-!
Verification of `pkg/volume/csi/csi_util.go` (package `csi`).

The Go source is shallowly embedded below.  Go strings are modelled as Lean
`String`s, Go `map[string]string` values as association lists
`List (String × String)` (a Go map has unique keys; where a statement needs
that fact it carries an explicit `Nodup` hypothesis), and `[]byte` as
`List Nat` (each entry a byte).  Stateful Go code is embedded by explicit
state passing, and a Go runtime panic is modelled as a distinguished
`crashed` outcome.  `klog` calls only emit log text and are not modelled.
-/

namespace Csi

/-! ## Model of the protobuf data reachable from `SanitizeMsg`

`SanitizeMsg(pb interface{})` inspects its argument through
`github.com/golang/protobuf`:

 * `pb.(descriptor.Message)` — whether the dynamic type carries generated
   descriptor metadata (`hasDescriptor` below).  `descriptor.Message`
   embeds `proto.Message`, so the later `pb.(proto.Message)` assertion
   cannot fail once this one succeeded; the model therefore has no separate
   flag for it.
 * `descriptor.ForMessage(...).GetField()` — the slice of field descriptors
   of the message's schema; a `nil` slice is modelled as `none`
   (`schemaFields`).
 * `proto.GetExtension(field.Options, csipb.E_CsiSecret)` — returns an
   error iff the extension is absent; when present it returns a `*bool`
   (so the source's `opt.(*bool)` type assertion succeeds exactly when the
   extension is present).  A present extension with payload `b` is modelled
   as `csiSecretExt = some b`; the source never reads `b`.
 * `reflect` access to the runtime struct: the message's exported Go struct
   fields, in declaration order, each with its Go (capitalized) name, its
   runtime value and its `CanSet` reflect flag (`structFields`).

A runtime field value is either a `map[string]string` (`strMap`) or any
other value; for other values only their `fmt` `%v` rendering matters to
the source, so the model stores that rendering (`other`).
-/

/-- Runtime value of one Go struct field, as far as `SanitizeMsg` can
observe it: a `map[string]string`, or anything else together with its
`fmt` `%v` rendering. -/
inductive FieldValue where
  | strMap (entries : List (String × String))
  | other (rendering : String)
deriving DecidableEq, Repr

/-- One exported field of the runtime Go struct backing the message:
its Go field name, its value and its reflect `CanSet` capability. -/
structure StructField where
  name : String
  value : FieldValue
  canSet : Bool
deriving DecidableEq, Repr

/-- One entry of the schema's field-descriptor slice
(`descr.FieldDescriptorProto`): the proto field name and, when the
`csipb.E_CsiSecret` extension is present on its options, the extension's
boolean payload. -/
structure FieldDescriptorProto where
  name : String
  csiSecretExt : Option Bool
deriving DecidableEq, Repr

/-- A value passed to `SanitizeMsg`, together with everything the source
can reach from it by reflection. -/
structure Msg where
  hasDescriptor : Bool
  schemaFields : Option (List FieldDescriptorProto)
  structFields : List StructField
deriving DecidableEq, Repr

/-- Redaction marker substituted by the source for every value of a
sensitive mapping (string literal at line 191 of `csi_util.go`). -/
def redactionMarker : String := "* * * Sanitized * * *"

/-- Outcome of one `SanitizeMsg` call: either a Go runtime panic
(`crashed`) or a returned string (`returned`), in both cases together with
the post-state of the caller's message (Go maps are reference values, so
the source's writes through `m[key] = ...` and `Set` act on the caller's
message; the model makes that explicit by threading the `Msg` state). -/
inductive SanOut where
  | crashed (post : Msg)
  | returned (res : String) (post : Msg)
deriving DecidableEq, Repr

/-- Returned string of an outcome; `none` models a panic. -/
def SanOut.result : SanOut → Option String
  | .crashed _ => none
  | .returned s _ => some s

/-- Post-state of the caller's message after the call. -/
def SanOut.post : SanOut → Msg
  | .crashed m => m
  | .returned _ m => m

/-- True iff the outcome is a Go runtime panic. -/
def SanOut.isCrash : SanOut → Bool
  | .crashed _ => true
  | .returned _ _ => false

/-- Model of the descriptor-collection loop of `SanitizeMsg`
(lines 164–174): walk the schema's fields and collect a field whose
options carry the `csi_secret` extension (`err == nil` and the `*bool`
assertion both hold exactly when the extension is present).  The source
executes `break` right after the first append, so at most one descriptor
is ever collected. -/
def collectSanitizeFields : List FieldDescriptorProto → List FieldDescriptorProto
  | [] => []
  | f :: rest =>
    if f.csiSecretExt.isSome then [f] else collectSanitizeFields rest

/-- Model of `fieldName = strings.ToUpper(fieldName[:1]) + fieldName[1:]`
(line 184).  On an empty name, `fieldName[:1]` slices out of range and
panics, modelled as `none`. -/
def capitalizeFirst (s : String) : Option String :=
  match s.data with
  | [] => none
  | c :: cs => some (String.mk (c.toUpper :: cs))

/-- Model of `reflect.Value.FieldByName` on the message struct: the first
field with the given name, `none` when there is no such field (Go returns
the zero `reflect.Value`, on which the source's subsequent `.Interface()`
call panics). -/
def fieldByName (fs : List StructField) (n : String) : Option StructField :=
  fs.find? (fun sf => sf.name == n)

/-- Model of `for key := range m { m[key] = "* * * Sanitized * * *" }`
(lines 190–192): every key kept, every value replaced by the marker. -/
def setMapValues (m : List (String × String)) : List (String × String) :=
  m.map (fun kv => (kv.1, redactionMarker))

/-- Replace the value of the struct field named `n` — the observable
effect on the caller's message of the source's in-place map writes (and of
the subsequent `Set`, which stores the same map back). -/
def updateField (fs : List StructField) (n : String) (v : FieldValue) : List StructField :=
  fs.map (fun sf => if sf.name == n then { sf with value := v } else sf)

/-- Model of Go's `fmt` `%v` rendering of a `map[string]string`:
`map[k1:v1 k2:v2]`.  Go prints map entries sorted by key; the model prints
them in stored order, which only permutes the entries inside the brackets
(the concrete messages used below keep entries already in key order). -/
def renderValue : FieldValue → String
  | .strMap m =>
    "map[" ++ String.intercalate " " (m.map (fun kv => kv.1 ++ ":" ++ kv.2)) ++ "]"
  | .other r => r

/-- Model of `fmt.Sprintf("%v", msg)` (line 200) on a pointer to the
message struct: `&` followed by the brace-enclosed space-separated field
values. -/
def renderMsg (m : Msg) : String :=
  "&\x7b" ++ String.intercalate " " (m.structFields.map (fun sf => renderValue sf.value)) ++ "\x7d"

/-- Model of the per-descriptor loop of `SanitizeMsg` (lines 182–198),
threading the message state.  For each collected descriptor: capitalize
the first letter of its name (panic on an empty name), look the field up
by that name (`.Interface()` panics when the lookup misses), require a
`map[string]string` (`return ""` otherwise), overwrite every value of
that map with the marker — an in-place write into the caller's map — and
finally `return ""` when the field is not settable.  After the loop the
mutated message is rendered (line 200). -/
def sanitizeLoop (msg : Msg) : List FieldDescriptorProto → SanOut
  | [] => .returned (renderMsg msg) msg
  | f :: rest =>
    match capitalizeFirst f.name with
    | none => .crashed msg
    | some fieldName =>
      match fieldByName msg.structFields fieldName with
      | none => .crashed msg
      | some sf =>
        match sf.value with
        | .other _ => .returned "" msg
        | .strMap m =>
          let msg' : Msg :=
            { msg with structFields := updateField msg.structFields fieldName (.strMap (setMapValues m)) }
          if sf.canSet then sanitizeLoop msg' rest
          else .returned "" msg'

/-- Model of `SanitizeMsg` (lines 154–201 of `csi_util.go`): return `""`
unless the argument is a `descriptor.Message`; return `""` when the
schema's field slice is `nil`; collect the sensitive descriptors
(`collectSanitizeFields`); return `""` when none was collected; otherwise
run the redaction loop and render. -/
def SanitizeMsg (pb : Msg) : SanOut :=
  if !pb.hasDescriptor then .returned "" pb
  else
    match pb.schemaFields with
    | none => .returned "" pb
    | some fields =>
      let sanitizeFields := collectSanitizeFields fields
      if sanitizeFields.isEmpty then .returned "" pb
      else sanitizeLoop pb sanitizeFields

/-! ## Model of `getCredentialsFromSecret` (lines 47–59)

The Kubernetes API client (`k8s.CoreV1().Secrets(ns).Get(...)`) is an
external collaborator; its outcome is passed in as an `Except` value.  A
Go `map[string]string` result is modelled as `Option (List (String ×
String))` so that a `nil` map (`none`) is distinguishable from an empty
one (`some []`); the source initializes `credentials := map[string]string{}`,
which is the non-nil empty map. -/

/-- A Go `[]byte` value, one `Nat < 256` per byte. -/
abbrev ByteSlice := List Nat

/-- Model of Go's `string(value)` conversion of a `[]byte`: the bytes,
read as characters. -/
def goStringOfBytes (bs : ByteSlice) : String :=
  String.mk (bs.map Char.ofNat)

/-- The part of a Kubernetes secret object read by the source: its `Data`
map from key to byte slice (unique keys, it is a Go map). -/
structure Secret where
  data : List (String × ByteSlice)
deriving DecidableEq, Repr

/-- Model of one Go map assignment `m[k] = v` on an association list:
overwrite the entry when the key is present, append it otherwise. -/
def mapPut (m : List (String × String)) (k v : String) : List (String × String) :=
  if m.any (fun kv => kv.1 == k) then
    m.map (fun kv => if kv.1 == k then (k, v) else kv)
  else m ++ [(k, v)]

/-- Model of `getCredentialsFromSecret` (lines 47–59): start from the
non-nil empty map; on a lookup error return it together with the error;
on success copy every entry of the secret's `Data`, converting each value
with `string(...)`.  First component: the returned map (`none` would be a
nil map — never produced); second component: the returned error. -/
def getCredentialsFromSecret (getResult : Except String Secret) :
    Option (List (String × String)) × Option String :=
  match getResult with
  | .error err => (some [], some err)
  | .ok secret =>
    (some (secret.data.foldl (fun acc kv => mapPut acc kv.1 (goStringOfBytes kv.2)) []), none)

/-! ## Model of the volume-data JSON persistence (lines 62–98)

`saveVolumeData` writes `json.NewEncoder(file).Encode(data)` — the JSON
object of the map followed by a newline — to `path.Join(dir, fileName)`;
`loadVolumeData` opens the same path and decodes a `map[string]string`
from it.  `encoding/json` is Go's standard library; it is embedded here
as an executable encoder/decoder for JSON objects of strings:

 * the encoder emits the entries sorted by key (Go sorts map keys), each
   string quoted with `"` and `\` escaped, control characters escaped as
   `\n`, `\r`, `\t` or `\u00xx`, and — `Encoder` defaults to HTML-safe
   output — `<`, `>`, `&`, U+2028 and U+2029 escaped as `\uxxxx`;
 * the decoder parses `{"k":"v",...}` handling the escapes `\"`, `\\`,
   `\/`, `\b`, `\f`, `\n`, `\r`, `\t` and `\uxxxx`, and — like Go's
   stream decoder — ignores anything after the object (the trailing
   newline written by `Encode`).  Go's decoder additionally tolerates
   whitespace inside the object and surrogate-pair escapes; the encoder
   emits neither, so they are omitted.  A `nil` map is encoded by Go as
   `null` and loads back as the (equal as a mapping) empty map; the model
   has no nil/empty distinction and encodes the empty map as `\x7b\x7d`.

The filesystem is modelled as an association list from path to contents;
`os.Create` truncates/creates, `os.Open` fails on a missing path. -/

/-- The `\x7b` character. -/
def lbrace : Char := Char.ofNat 123

/-- The `\x7d` character. -/
def rbrace : Char := Char.ofNat 125

/-- Lower-case hexadecimal digit for `n < 16`. -/
def hexDigitChar (n : Nat) : Char :=
  if n < 10 then Char.ofNat (48 + n) else Char.ofNat (87 + n)

/-- Four lower-case hex digits of `n < 0x10000`, most significant first. -/
def uHex4 (n : Nat) : List Char :=
  [hexDigitChar (n / 4096 % 16), hexDigitChar (n / 256 % 16),
   hexDigitChar (n / 16 % 16), hexDigitChar (n % 16)]

/-- JSON escaping of one character, as Go's `encoding/json` encoder emits
it (HTML-safe mode): `"` and `\` get a backslash, `\n`, `\r`, `\t` their
short escapes, other control characters and `<`, `>`, `&`, U+2028, U+2029
a `\uxxxx` escape; everything else is emitted verbatim. -/
def escapeChar (c : Char) : List Char :=
  if c = '"' then ['\\', '"']
  else if c = '\\' then ['\\', '\\']
  else if c = '\n' then ['\\', 'n']
  else if c = '\r' then ['\\', 'r']
  else if c = '\t' then ['\\', 't']
  else if c.toNat < 32 ∨ c.toNat = 60 ∨ c.toNat = 62 ∨ c.toNat = 38 ∨ c.toNat = 0x2028 ∨ c.toNat = 0x2029 then
    '\\' :: 'u' :: uHex4 c.toNat
  else [c]

/-- JSON string literal for `s`: quote, escaped characters, quote. -/
def encodeJString (s : String) : List Char :=
  '"' :: (s.data.map escapeChar).flatten ++ ['"']

/-- One `"key":"value"` member of the JSON object. -/
def encodeMember (kv : String × String) : List Char :=
  encodeJString kv.1 ++ ':' :: encodeJString kv.2

/-- The members of the JSON object, separated by commas. -/
def encodeMembersList : List (String × String) → List Char
  | [] => []
  | [kv] => encodeMember kv
  | kv :: rest => encodeMember kv ++ ',' :: encodeMembersList rest

/-- Entries sorted by key — Go's `encoding/json` emits a map's keys in
sorted order. -/
def sortEntries (l : List (String × String)) : List (String × String) :=
  l.mergeSort (fun a b => decide (a.1 ≤ b.1))

/-- Characters of the JSON object encoding of the mapping. -/
def jsonObjectChars (data : List (String × String)) : List Char :=
  lbrace :: encodeMembersList (sortEntries data) ++ [rbrace]

/-- JSON encoding of a `map[string]string`, as `json.Marshal` produces
it. -/
def encodeJSONObject (data : List (String × String)) : String :=
  String.mk (jsonObjectChars data)

/-- Value of one hexadecimal digit character, `none` otherwise. -/
def parseHexDigit (c : Char) : Option Nat :=
  if 48 ≤ c.toNat ∧ c.toNat ≤ 57 then some (c.toNat - 48)
  else if 97 ≤ c.toNat ∧ c.toNat ≤ 102 then some (c.toNat - 87)
  else if 65 ≤ c.toNat ∧ c.toNat ≤ 70 then some (c.toNat - 55)
  else none

/-- The character denoted by a short escape `\e`, for
`e ∈ \x7b " \ / b f n r t \x7d`; `none` otherwise. -/
def unescapeChar (e : Char) : Option Char :=
  if e = '"' then some '"'
  else if e = '\\' then some '\\'
  else if e = '/' then some '/'
  else if e = 'b' then some (Char.ofNat 8)
  else if e = 'f' then some (Char.ofNat 12)
  else if e = 'n' then some '\n'
  else if e = 'r' then some '\r'
  else if e = 't' then some '\t'
  else none

/-- Parse the body of a JSON string literal (the opening quote already
consumed): returns the decoded characters and the input after the closing
quote.  A `\uxxxx` escape whose code is a UTF-16 surrogate is rejected
(Go pairs surrogates; the encoder never emits them). -/
def parseJStringAux : List Char → Option (List Char × List Char)
  | [] => none
  | c :: rest =>
    if c = '"' then some ([], rest)
    else if c = '\\' then
      match rest with
      | [] => none
      | e :: rest2 =>
        if e = 'u' then
          match rest2 with
          | a :: b :: cc :: d :: rest3 =>
            match parseHexDigit a, parseHexDigit b, parseHexDigit cc, parseHexDigit d with
            | some ha, some hb, some hc, some hd =>
              let n := 4096 * ha + 256 * hb + 16 * hc + hd
              if n < 0xd800 ∨ 0xe000 ≤ n then
                match parseJStringAux rest3 with
                | some (s, r) => some (Char.ofNat n :: s, r)
                | none => none
              else none
            | _, _, _, _ => none
          | _ => none
        else
          match unescapeChar e with
          | some ch =>
            match parseJStringAux rest2 with
            | some (s, r) => some (ch :: s, r)
            | none => none
          | none => none
    else
      match parseJStringAux rest with
      | some (s, r) => some (c :: s, r)
      | none => none

/-- Parse one `"key":"value"` member; returns the pair and the rest of
the input. -/
def parseMember (cs : List Char) : Option ((String × String) × List Char) :=
  match cs with
  | [] => none
  | q :: rest =>
    if q = '"' then
      match parseJStringAux rest with
      | none => none
      | some (k, r1) =>
        match r1 with
        | ':' :: q2 :: r2 =>
          if q2 = '"' then
            match parseJStringAux r2 with
            | none => none
            | some (v, r3) => some ((String.mk k, String.mk v), r3)
          else none
        | _ => none
    else none

/-- Parse a non-empty comma-separated member list followed by the closing
brace; returns the members and the input after the brace.  `fuel` bounds
the number of members (one unit per member suffices). -/
def parseMembers (fuel : Nat) (cs : List Char) : Option (List (String × String) × List Char) :=
  match fuel with
  | 0 => none
  | fuel + 1 =>
    match parseMember cs with
    | none => none
    | some (kv, rest) =>
      match rest with
      | [] => none
      | c :: rest2 =>
        if c = ',' then
          match parseMembers fuel rest2 with
          | some (l, r) => some (kv :: l, r)
          | none => none
        else if c = rbrace then some ([kv], rest2)
        else none

/-- Decode a JSON object of strings from the front of `s`, ignoring
anything after the closing brace (Go's stream decoder reads one value). -/
def decodeJSONObject (s : String) : Option (List (String × String)) :=
  match s.data with
  | [] => none
  | c :: rest =>
    if c = lbrace then
      match rest with
      | [] => none
      | d :: _ =>
        if d = rbrace then some []
        else
          match parseMembers rest.length rest with
          | some (l, _) => some l
          | none => none
    else none

/-- A model filesystem: newest-first association list from path to file
contents. -/
def FileSys : Type := List (String × String)

/-- Model of `os.Create` followed by writing `contents`: the path now
holds exactly `contents`. -/
def fsWrite (fs : FileSys) (p contents : String) : FileSys :=
  (p, contents) :: fs

/-- Model of `os.Open` + reading: the current contents at the path,
`none` when no such file exists. -/
def fsRead (fs : FileSys) (p : String) : Option String :=
  (fs.find? (fun e => e.1 == p)).map (fun e => e.2)

/-- Model of `path.Join(dir, fileName)`.  Go additionally cleans the
joined path (collapsing separators); both functions under verification
apply the identical join to identical arguments, so cleaning is dropped. -/
def goPathJoin (dir fileName : String) : String :=
  dir ++ "/" ++ fileName

/-- Model of `saveVolumeData` (lines 62–77): create/truncate the file at
`path.Join(dir, fileName)` and `Encode` the mapping into it — the JSON
object followed by the newline appended by `Encoder.Encode`. -/
def saveVolumeData (fs : FileSys) (dir fileName : String)
    (data : List (String × String)) : FileSys :=
  fsWrite fs (goPathJoin dir fileName) (encodeJSONObject data ++ "\n")

/-- Model of `loadVolumeData` (lines 80–98): open the file at
`path.Join(dir, fileName)` (`none` when missing) and decode a
`map[string]string` from it (`none` when malformed). -/
def loadVolumeData (fs : FileSys) (dir fileName : String) :
    Option (List (String × String)) :=
  match fsRead fs (goPathJoin dir fileName) with
  | none => none
  | some contents => decodeJSONObject contents

/-! ## Model of the block-device path helpers (lines 126–137)

`csiPluginName` is declared in `csi_plugin.go` of the same package (not
part of the provided source); its value `kubernetes.io/csi` is fixed by
the path comments at lines 124 and 132 of `csi_util.go`
(`plugins/kubernetes.io/csi/volumeDevices/...`).
`kstrings.EscapeQualifiedNameForDisk` (package `pkg/util/strings`) and
the `volume.VolumeHost` interface are likewise outside the provided
source; modelled from the spec: the volume identifier is passed through a
sanitization function, and the host supplies the plugin's volume-device
directory — both are taken as parameters, applied identically by the two
functions. -/

/-- Name under which the CSI plugin registers (`csi_plugin.go`). -/
def csiPluginName : String := "kubernetes.io/csi"

/-- Model of `getVolumeDevicePluginDir` (lines 126–129):
`path.Join(host.GetVolumeDevicePluginDir(csiPluginName), sanitizedSpecVolID, "dev")`. -/
def getVolumeDevicePluginDir (escapeQualifiedNameForDisk : String → String)
    (hostVolumeDevicePluginDir : String → String) (specVolID : String) : String :=
  goPathJoin (goPathJoin (hostVolumeDevicePluginDir csiPluginName)
    (escapeQualifiedNameForDisk specVolID)) "dev"

/-- Model of `getVolumeDeviceDataDir` (lines 134–137):
`path.Join(host.GetVolumeDevicePluginDir(csiPluginName), sanitizedSpecVolID, "data")`. -/
def getVolumeDeviceDataDir (escapeQualifiedNameForDisk : String → String)
    (hostVolumeDevicePluginDir : String → String) (specVolID : String) : String :=
  goPathJoin (goPathJoin (hostVolumeDevicePluginDir csiPluginName)
    (escapeQualifiedNameForDisk specVolID)) "data"

/-! ## Introspection helper lemmas -/

/-- The collection loop yields at most one descriptor: the source breaks
out of the loop right after the first append. -/
lemma collect_nil_or_singleton (fs : List FieldDescriptorProto) :
    collectSanitizeFields fs = [] ∨ ∃ f, collectSanitizeFields fs = [f] := by
  induction fs with
  | nil => exact Or.inl rfl
  | cons f rest ih =>
    by_cases h : f.csiSecretExt.isSome
    · exact Or.inr ⟨f, by simp [collectSanitizeFields, h]⟩
    · simpa [collectSanitizeFields, h] using ih

/-- Nothing is collected from a schema with no `csi_secret` extension. -/
lemma collect_eq_nil (fs : List FieldDescriptorProto)
    (h : ∀ f ∈ fs, f.csiSecretExt = none) :
    collectSanitizeFields fs = [] := by
  induction fs with
  | nil => rfl
  | cons f rest ih =>
    have hf : f.csiSecretExt = none := h f (by simp)
    have : collectSanitizeFields (f :: rest) = collectSanitizeFields rest := by
      simp [collectSanitizeFields, hf]
    rw [this]
    exact ih (fun g hg => h g (List.mem_cons_of_mem _ hg))

/-- Looking a name up after `updateField` returns the original field with
its value replaced. -/
lemma fieldByName_updateField (fs : List StructField) (n : String) (v : FieldValue) :
    fieldByName (updateField fs n v) n
      = (fieldByName fs n).map (fun sf => { sf with value := v }) := by
  induction fs with
  | nil => rfl
  | cons sf rest ih =>
    by_cases h : sf.name = n
    · simp [fieldByName, updateField, List.find?_cons, h]
    · have hb : (sf.name == n) = false := by simpa using h
      simp only [updateField, List.map_cons, fieldByName, hb, if_false] at *
      rw [List.find?_cons_of_neg, List.find?_cons_of_neg]
      · exact ih
      · simpa using h
      · simpa using h

/-! ## Example messages used by the concrete theorems -/

/-- A message whose schema carries the `csi_secret` extension on two
fields, `secrets` and `creds`, both populated with string-to-string
mappings at runtime. -/
def exTwoSecrets : Msg :=
  { hasDescriptor := true
    schemaFields := some [⟨"secrets", some true⟩, ⟨"creds", some true⟩]
    structFields := [⟨"Secrets", .strMap [("k", "v1")], true⟩,
                     ⟨"Creds", .strMap [("c", "p@ss")], true⟩] }

/-- The schema of `exTwoSecrets`. -/
def exTwoSecretSchema : List FieldDescriptorProto :=
  [⟨"secrets", some true⟩, ⟨"creds", some true⟩]

/-- A message with one sensitive field `secrets` holding the mapping
`\x7busername: alice, password: p@ss\x7d`. -/
def exSecretMsg : Msg :=
  { hasDescriptor := true
    schemaFields := some [⟨"secrets", some true⟩]
    structFields := [⟨"Secrets", .strMap [("password", "p@ss"), ("username", "alice")], true⟩] }

/-- A message whose sensitive field is declared as `node_stage_secrets`
(a multi-word proto name, as in CSI v0.x).  The generated Go struct field
is `NodeStageSecrets`, but the source capitalizes only the first letter
and looks up `Node_stage_secrets`, which does not exist. -/
def exCrashMsg : Msg :=
  { hasDescriptor := true
    schemaFields := some [⟨"node_stage_secrets", some true⟩]
    structFields := [⟨"NodeStageSecrets", .strMap [("u", "alice")], true⟩] }

/-- A message whose sensitive field `secrets` holds a plain string at
runtime instead of a string-to-string mapping. -/
def exMalformedMsg : Msg :=
  { hasDescriptor := true
    schemaFields := some [⟨"secrets", some true⟩]
    structFields := [⟨"Secrets", .other "plain-secret", true⟩] }

/-- A value whose type offers no descriptor metadata at all. -/
def exNoMetaMsg : Msg :=
  { hasDescriptor := false
    schemaFields := none
    structFields := [] }

/-- A message whose schema declares no sensitive field. -/
def exNoSensitiveMsg : Msg :=
  { hasDescriptor := true
    schemaFields := some [⟨"volume_id", none⟩, ⟨"readonly", none⟩]
    structFields := [⟨"VolumeId", .other "vol-123", true⟩,
                     ⟨"Readonly", .other "false", true⟩] }

/-! ## C1 — the no-leak invariant fails -/

/-- C1.  The claim says the string returned by `SanitizeMsg` contains
none of the original values of any sensitive field's mapping.  It fails:
on `exTwoSecrets` — both of whose schema fields carry the `csi_secret`
extension and hold string-to-string mappings — the collection loop breaks
after the first descriptor, the second sensitive field `Creds` is left
unredacted, and its secret value `p@ss` appears verbatim in the returned
string. -/
theorem sanitizeMsg_leaks_second_sensitive_field :
    (exTwoSecrets.schemaFields.getD []).all (fun f => f.csiSecretExt.isSome) = true ∧
    fieldByName exTwoSecrets.structFields "Creds"
      = some ⟨"Creds", .strMap [("c", "p@ss")], true⟩ ∧
    (SanitizeMsg exTwoSecrets).result
      = some "&\x7bmap[k:* * * Sanitized * * *] map[c:p@ss]\x7d" ∧
    "p@ss".data <:+: "&\x7bmap[k:* * * Sanitized * * *] map[c:p@ss]\x7d".data := by
  refine ⟨by decide, by decide, by decide, by decide⟩

/-! ## C2 — the introspection step collects a proper subset -/

/-- Introspection step as the spec words it (§4.1): the subset of field
descriptors whose sensitivity annotation is set.  Stated only for
comparison with `collectSanitizeFields`, which embeds the source. -/
def sensitiveFieldsSpec (fs : List FieldDescriptorProto) : List FieldDescriptorProto :=
  fs.filter (fun f => f.csiSecretExt.isSome)

/-- C2.  The claim says the schema-introspection step collects exactly
the set of all `csi_secret`-annotated descriptors and that every field of
that set is redacted.  It fails: on a schema with two annotated fields
the source's loop breaks after the first, so the collected list is a
proper subset of the annotated descriptors (`creds` is annotated but not
collected, hence never redacted — see C1's theorem for the resulting
leak). -/
theorem collectSanitizeFields_stops_at_first_annotated :
    collectSanitizeFields exTwoSecretSchema = [⟨"secrets", some true⟩] ∧
    sensitiveFieldsSpec exTwoSecretSchema
      = [⟨"secrets", some true⟩, ⟨"creds", some true⟩] ∧
    (⟨"creds", some true⟩ : FieldDescriptorProto) ∉ collectSanitizeFields exTwoSecretSchema ∧
    collectSanitizeFields exTwoSecretSchema ≠ sensitiveFieldsSpec exTwoSecretSchema := by
  refine ⟨by decide, by decide, by decide, by decide⟩

/-! ## C3 — the caller's message is mutated -/

/-- C3.  The claim says the caller's original message is unchanged after
`SanitizeMsg`.  It fails: a Go map is a reference value, so the source's
`m[key] = "* * * Sanitized * * *"` writes into the very map held by the
caller's message (and the subsequent `Set` stores that same map back into
the caller's struct).  On `exSecretMsg` the caller's `Secrets` field
holds the redaction marker, not the original secrets, after the call. -/
theorem sanitizeMsg_mutates_callers_message :
    fieldByName exSecretMsg.structFields "Secrets"
      = some ⟨"Secrets", .strMap [("password", "p@ss"), ("username", "alice")], true⟩ ∧
    fieldByName (SanitizeMsg exSecretMsg).post.structFields "Secrets"
      = some ⟨"Secrets", .strMap [("password", redactionMarker),
          ("username", redactionMarker)], true⟩ ∧
    (SanitizeMsg exSecretMsg).post ≠ exSecretMsg := by
  refine ⟨by decide, by decide, by decide⟩

/-! ## C4 — fail-safe on a malformed sensitive field: fails in general,
holds for the examined field -/

/-- A message whose only sensitive field `node_stage_token` holds a plain
string and has a multi-word proto name: the first-letter capitalization
yields `Node_stage_token`, which is not the generated Go field name
`NodeStageToken`, so the lookup misses and `.Interface()` panics before
the shape of the malformed value is ever checked. -/
def exMalformedCrashMsg : Msg :=
  { hasDescriptor := true
    schemaFields := some [⟨"node_stage_token", some true⟩]
    structFields := [⟨"NodeStageToken", .other "tok-123", true⟩] }

/-- A message whose first annotated field `secrets` holds a mapping while
its second annotated field `creds` holds a plain string: the collection
loop breaks after `secrets`, so the malformed `creds` is never examined
and its value is rendered verbatim next to the redacted first field. -/
def exPartialMsg : Msg :=
  { hasDescriptor := true
    schemaFields := some [⟨"secrets", some true⟩, ⟨"creds", some true⟩]
    structFields := [⟨"Secrets", .strMap [("k", "v1")], true⟩,
                     ⟨"Creds", .other "raw-cred", true⟩] }

/-- C4 counterexample.  The claim — every message with a
sensitive-annotated non-map field makes `SanitizeMsg` return the empty
string, without panic and without a partially redacted rendering — fails
on two concrete inputs: `exMalformedCrashMsg`, whose malformed sensitive
field's capitalized name resolves to no struct field, makes the call
panic instead of returning `""`; and `exPartialMsg`, whose malformed
sensitive field is the second annotated one and thus never examined,
makes the call return a non-empty, partially redacted rendering that
contains the malformed field's value `raw-cred` verbatim. -/
theorem sanitizeMsg_malformed_field_not_failsafe :
    (SanitizeMsg exMalformedCrashMsg).isCrash = true ∧
    (SanitizeMsg exPartialMsg).result
      = some "&\x7bmap[k:* * * Sanitized * * *] raw-cred\x7d" ∧
    (SanitizeMsg exPartialMsg).result ≠ some "" ∧
    "raw-cred".data <:+: "&\x7bmap[k:* * * Sanitized * * *] raw-cred\x7d".data := by
  refine ⟨by decide, by decide, by decide, by decide⟩

/-- C4 as amended.  When the examined sensitive field — the first
annotated descriptor collected (the loop breaks after it), with its
capitalized name resolving to a runtime struct field — holds a value
that is not a `map[string]string`, `SanitizeMsg` returns the empty
string: it neither panics nor renders anything, and the message is left
untouched, so no redaction of this message is surfaced at all. -/
theorem sanitizeMsg_malformed_sensitive_returns_empty (pb : Msg)
    (fs : List FieldDescriptorProto) (f : FieldDescriptorProto)
    (rest : List FieldDescriptorProto) (n : String) (sf : StructField) (r : String)
    (hfs : pb.schemaFields = some fs)
    (hcol : collectSanitizeFields fs = f :: rest)
    (hcap : capitalizeFirst f.name = some n)
    (hfind : fieldByName pb.structFields n = some sf)
    (hval : sf.value = .other r) :
    SanitizeMsg pb = .returned "" pb := by
  cases hD : pb.hasDescriptor with
  | false => simp [SanitizeMsg, hD]
  | true => simp [SanitizeMsg, hD, hfs, hcol, sanitizeLoop, hcap, hfind, hval]

/-- Witness for C4: the theorem applied to `exMalformedMsg`. -/
theorem sanitizeMsg_malformed_sensitive_returns_empty_witness :
    SanitizeMsg exMalformedMsg = .returned "" exMalformedMsg :=
  sanitizeMsg_malformed_sensitive_returns_empty exMalformedMsg
    [⟨"secrets", some true⟩] ⟨"secrets", some true⟩ [] "Secrets"
    ⟨"Secrets", .other "plain-secret", true⟩ "plain-secret"
    rfl rfl rfl rfl rfl

/-! ## C5 — the source is not total: reflection can panic -/

/-- Decidable side condition under which the redaction loop cannot panic:
the descriptor's name capitalizes (is non-empty) and resolves to a struct
field of the message. -/
def resolves (pb : Msg) (f : FieldDescriptorProto) : Bool :=
  match capitalizeFirst f.name with
  | none => false
  | some n => (fieldByName pb.structFields n).isSome

/-- C5 counterexample.  The claim says no input makes `SanitizeMsg` panic.
It fails: on `exCrashMsg` the sensitive field is named
`node_stage_secrets`, the source capitalizes only the first letter and
calls `.Interface()` on the zero `reflect.Value` returned by
`FieldByName("Node_stage_secrets")`, which panics. -/
theorem sanitizeMsg_crashes_on_unresolvable_name :
    (SanitizeMsg exCrashMsg).isCrash = true := by decide

/-- C5 as amended: every failure among missing schema metadata, absent
`csi_secret` annotations, a malformed sensitive field and an unwritable
field is absorbed into the empty-string result, and whenever every
collected descriptor's capitalized name resolves to a runtime struct
field, `SanitizeMsg` returns (it does not panic). -/
theorem sanitizeMsg_returns_when_names_resolve (pb : Msg)
    (h : ∀ f ∈ collectSanitizeFields (pb.schemaFields.getD []), resolves pb f = true) :
    (SanitizeMsg pb).isCrash = false := by
  cases hD : pb.hasDescriptor with
  | false => simp [SanitizeMsg, hD, SanOut.isCrash]
  | true =>
    cases hfs : pb.schemaFields with
    | none => simp [SanitizeMsg, hD, hfs, SanOut.isCrash]
    | some fs =>
      rcases collect_nil_or_singleton fs with hnil | ⟨f, hone⟩
      · simp [SanitizeMsg, hD, hfs, hnil, SanOut.isCrash]
      · have hf : resolves pb f = true := by
          apply h
          simp [hfs, hone]
        cases hcap : capitalizeFirst f.name with
        | none => exact absurd hf (by simp [resolves, hcap])
        | some n =>
          have hf' : (fieldByName pb.structFields n).isSome = true := by
            simpa [resolves, hcap] using hf
          cases hfind : fieldByName pb.structFields n with
          | none => rw [hfind] at hf'; exact absurd hf' (by simp)
          | some sf =>
            cases hval : sf.value with
            | other r =>
              simp [SanitizeMsg, hD, hfs, hone, sanitizeLoop, hcap, hfind, hval, SanOut.isCrash]
            | strMap m =>
              cases hset : sf.canSet with
              | false =>
                simp [SanitizeMsg, hD, hfs, hone, sanitizeLoop, hcap, hfind, hval, hset,
                  SanOut.isCrash]
              | true =>
                simp [SanitizeMsg, hD, hfs, hone, sanitizeLoop, hcap, hfind, hval, hset,
                  SanOut.isCrash]

/-- Witness for the amended C5: the theorem applied to `exSecretMsg`. -/
theorem sanitizeMsg_returns_when_names_resolve_witness :
    (∀ f ∈ collectSanitizeFields (exSecretMsg.schemaFields.getD []),
      resolves exSecretMsg f = true) ∧
    (SanitizeMsg exSecretMsg).isCrash = false :=
  ⟨by decide, sanitizeMsg_returns_when_names_resolve exSecretMsg (by decide)⟩

/-! ## C6 — key preservation of the redacted mapping -/

/-- C6.  For a message whose collected sensitive field holds a
string-to-string mapping, the redacted mapping produced by `SanitizeMsg`
is `setMapValues m`: it has exactly the keys of the original mapping `m`
(none added, none removed, order kept) and the redaction marker as the
value at every key. -/
theorem sanitizeMsg_redacts_preserving_keys (pb : Msg)
    (fs : List FieldDescriptorProto) (f : FieldDescriptorProto) (n : String)
    (sf : StructField) (m : List (String × String))
    (hD : pb.hasDescriptor = true)
    (hfs : pb.schemaFields = some fs)
    (hcol : collectSanitizeFields fs = [f])
    (hcap : capitalizeFirst f.name = some n)
    (hfind : fieldByName pb.structFields n = some sf)
    (hval : sf.value = .strMap m)
    (hset : sf.canSet = true) :
    ∃ sf', fieldByName (SanitizeMsg pb).post.structFields n = some sf' ∧
      sf'.value = .strMap (setMapValues m) ∧
      (setMapValues m).map Prod.fst = m.map Prod.fst ∧
      ∀ kv ∈ setMapValues m, kv.2 = redactionMarker := by
  refine ⟨{ sf with value := .strMap (setMapValues m) }, ?_, rfl, ?_, ?_⟩
  · have : SanitizeMsg pb = sanitizeLoop pb [f] := by
      simp [SanitizeMsg, hD, hfs, hcol]
    rw [this]
    simp only [sanitizeLoop, hcap, hfind, hval, hset, if_true]
    simp only [SanOut.post]
    rw [fieldByName_updateField, hfind]
    simp [hset]
  · simp [setMapValues]
  · intro kv hkv
    simp only [setMapValues, List.mem_map] at hkv
    obtain ⟨p, _, hp⟩ := hkv
    rw [← hp]

/-- Witness for C6: the theorem applied to `exSecretMsg`. -/
theorem sanitizeMsg_redacts_preserving_keys_witness :
    ∃ sf', fieldByName (SanitizeMsg exSecretMsg).post.structFields "Secrets" = some sf' ∧
      sf'.value = .strMap (setMapValues [("password", "p@ss"), ("username", "alice")]) ∧
      (setMapValues [("password", "p@ss"), ("username", "alice")]).map Prod.fst
        = [("password", "p@ss"), ("username", "alice")].map Prod.fst ∧
      ∀ kv ∈ setMapValues [("password", "p@ss"), ("username", "alice")],
        kv.2 = redactionMarker :=
  sanitizeMsg_redacts_preserving_keys exSecretMsg
    [⟨"secrets", some true⟩] ⟨"secrets", some true⟩ "Secrets"
    ⟨"Secrets", .strMap [("password", "p@ss"), ("username", "alice")], true⟩
    [("password", "p@ss"), ("username", "alice")]
    rfl rfl rfl rfl rfl rfl rfl

/-! ## C7 — no sensitive field, or no schema metadata: empty output -/

/-- C7.  When the value carries no descriptor metadata, or its schema has
a `nil` field slice, or no schema field carries the `csi_secret`
extension, `SanitizeMsg` returns the empty string and leaves the message
untouched; `SanitizeMsg` is a pure function, so repeated calls on the
same input return the same (empty) string. -/
theorem sanitizeMsg_empty_when_nothing_sensitive (pb : Msg)
    (h : pb.hasDescriptor = false ∨ pb.schemaFields = none ∨
      ∃ fs, pb.schemaFields = some fs ∧ ∀ f ∈ fs, f.csiSecretExt = none) :
    SanitizeMsg pb = .returned "" pb := by
  rcases h with hD | hfs | ⟨fs, hfs, hnone⟩
  · simp [SanitizeMsg, hD]
  · cases hD : pb.hasDescriptor with
    | false => simp [SanitizeMsg, hD]
    | true => simp [SanitizeMsg, hD, hfs]
  · cases hD : pb.hasDescriptor with
    | false => simp [SanitizeMsg, hD]
    | true => simp [SanitizeMsg, hD, hfs, collect_eq_nil fs hnone]

/-- Witness for C7: the theorem applied to a value without metadata and
to a message without sensitive fields. -/
theorem sanitizeMsg_empty_when_nothing_sensitive_witness :
    SanitizeMsg exNoMetaMsg = .returned "" exNoMetaMsg ∧
    SanitizeMsg exNoSensitiveMsg = .returned "" exNoSensitiveMsg :=
  ⟨sanitizeMsg_empty_when_nothing_sensitive exNoMetaMsg (Or.inl rfl),
   sanitizeMsg_empty_when_nothing_sensitive exNoSensitiveMsg
     (Or.inr (Or.inr ⟨[⟨"volume_id", none⟩, ⟨"readonly", none⟩], rfl, by decide⟩))⟩

/-! ## JSON round-trip lemmas (towards C8) -/

/-- A `String` rebuilt from its characters is itself. -/
lemma stringMk_data (s : String) : String.mk s.data = s := by
  cases s
  rfl

/-- A hexadecimal digit survives the encode/parse round trip. -/
lemma hexDigitChar_round : ∀ n < 16, parseHexDigit (hexDigitChar n) = some n := by decide

/-- Parsing a `\uxxxx` escape of a non-surrogate code below `0xd800`
yields that code and continues. -/
lemma parseJStringAux_uescape (n : Nat) (hn : n < 0xd800) (tail : List Char) :
    parseJStringAux ('\\' :: 'u' :: (uHex4 n ++ tail))
      = match parseJStringAux tail with
        | some (s, r) => some (Char.ofNat n :: s, r)
        | none => none := by
  have h1 : n / 4096 % 16 < 16 := Nat.mod_lt _ (by norm_num)
  have h2 : n / 256 % 16 < 16 := Nat.mod_lt _ (by norm_num)
  have h3 : n / 16 % 16 < 16 := Nat.mod_lt _ (by norm_num)
  have h4 : n % 16 < 16 := Nat.mod_lt _ (by norm_num)
  have hrec : 4096 * (n / 4096 % 16) + 256 * (n / 256 % 16) + 16 * (n / 16 % 16) + n % 16 = n := by
    omega
  rw [show uHex4 n ++ tail
      = hexDigitChar (n / 4096 % 16) :: hexDigitChar (n / 256 % 16)
        :: hexDigitChar (n / 16 % 16) :: hexDigitChar (n % 16) :: tail from rfl]
  rw [parseJStringAux.eq_def]
  simp [hexDigitChar_round _ h1, hexDigitChar_round _ h2, hexDigitChar_round _ h3,
    hexDigitChar_round _ h4, hrec, hn]

/-- Parsing a short escape `\e` yields its character and continues. -/
lemma parse_short_escape (e ch : Char) (he : unescapeChar e = some ch) (hu : e ≠ 'u')
    (t : List Char) :
    parseJStringAux ('\\' :: e :: t)
      = match parseJStringAux t with
        | some (s, r) => some (ch :: s, r)
        | none => none := by
  rw [parseJStringAux.eq_def]
  simp [hu, he]

/-- Parsing an unescaped character yields it and continues. -/
lemma parse_plain_char (c : Char) (h1 : c ≠ '"') (h2 : c ≠ '\\') (t : List Char) :
    parseJStringAux (c :: t)
      = match parseJStringAux t with
        | some (s, r) => some (c :: s, r)
        | none => none := by
  rw [parseJStringAux.eq_def]
  simp [h1, h2]

/-- A JSON-escaped string followed by its closing quote parses back to
exactly the original characters. -/
lemma parseJStringAux_encode (s rest : List Char) :
    parseJStringAux ((s.map escapeChar).flatten ++ '"' :: rest) = some (s, rest) := by
  induction s with
  | nil =>
    simp only [List.map_nil, List.flatten_nil, List.nil_append]
    rw [parseJStringAux.eq_def]
    simp
  | cons c s ih =>
    rw [List.map_cons, List.flatten_cons, List.append_assoc]
    by_cases hc1 : c = '"'
    · subst hc1
      rw [show escapeChar '"' = ['\\', '"'] from rfl]
      simp only [List.cons_append, List.nil_append]
      rw [parse_short_escape '"' '"' rfl (by decide), ih]
    · by_cases hc2 : c = '\\'
      · subst hc2
        rw [show escapeChar '\\' = ['\\', '\\'] from rfl]
        simp only [List.cons_append, List.nil_append]
        rw [parse_short_escape '\\' '\\' rfl (by decide), ih]
      · by_cases hc3 : c = '\n'
        · subst hc3
          rw [show escapeChar '\n' = ['\\', 'n'] from rfl]
          simp only [List.cons_append, List.nil_append]
          rw [parse_short_escape 'n' '\n' rfl (by decide), ih]
        · by_cases hc4 : c = '\r'
          · subst hc4
            rw [show escapeChar '\r' = ['\\', 'r'] from rfl]
            simp only [List.cons_append, List.nil_append]
            rw [parse_short_escape 'r' '\r' rfl (by decide), ih]
          · by_cases hc5 : c = '\t'
            · subst hc5
              rw [show escapeChar '\t' = ['\\', 't'] from rfl]
              simp only [List.cons_append, List.nil_append]
              rw [parse_short_escape 't' '\t' rfl (by decide), ih]
            · by_cases hc6 : c.toNat < 32 ∨ c.toNat = 60 ∨ c.toNat = 62 ∨ c.toNat = 38 ∨
                c.toNat = 0x2028 ∨ c.toNat = 0x2029
              · have hesc : escapeChar c = '\\' :: 'u' :: uHex4 c.toNat := by
                  simp [escapeChar, hc1, hc2, hc3, hc4, hc5, hc6]
                have hd8 : c.toNat < 0xd800 := by
                  rcases hc6 with h | h | h | h | h | h <;> omega
                rw [hesc]
                simp only [List.cons_append]
                rw [parseJStringAux_uescape c.toNat hd8, ih, Char.ofNat_toNat]
              · have hesc : escapeChar c = [c] := by
                  simp [escapeChar, hc1, hc2, hc3, hc4, hc5, hc6]
                rw [hesc, List.singleton_append, parse_plain_char c hc1 hc2, ih]

/-- An encoded `"key":"value"` member parses back to the pair. -/
lemma parseMember_encode (k v : String) (rest : List Char) :
    parseMember (encodeMember (k, v) ++ rest) = some ((k, v), rest) := by
  have hm : encodeMember (k, v) ++ rest
      = '"' :: ((k.data.map escapeChar).flatten
          ++ '"' :: (':' :: '"' :: ((v.data.map escapeChar).flatten ++ '"' :: rest))) := by
    simp [encodeMember, encodeJString]
  rw [hm]
  simp [parseMember, parseJStringAux_encode, stringMk_data]

/-- An encoded member list followed by the closing brace parses back to
the original entries, given fuel for every member. -/
lemma parseMembers_encode (entries : List (String × String)) (h : entries ≠ [])
    (fuel : Nat) (hf : entries.length ≤ fuel) (rest : List Char) :
    parseMembers fuel (encodeMembersList entries ++ rbrace :: rest) = some (entries, rest) := by
  induction entries generalizing fuel with
  | nil => exact absurd rfl h
  | cons kv tl ih =>
    cases fuel with
    | zero => simp at hf
    | succ fuel =>
      obtain ⟨k, v⟩ := kv
      cases tl with
      | nil =>
        simp only [encodeMembersList]
        unfold parseMembers
        rw [parseMember_encode]
        have h1 : ¬(rbrace = ',') := by decide
        simp [h1]
      | cons kv2 tl2 =>
        simp only [encodeMembersList, List.append_assoc, List.cons_append]
        unfold parseMembers
        rw [parseMember_encode]
        have hlen : (kv2 :: tl2).length ≤ fuel := by
          simp only [List.length_cons] at hf ⊢
          omega
        simp [ih (by simp) fuel hlen]

/-- Every entry costs at least one character in the encoding. -/
lemma encodeMembersList_length (entries : List (String × String)) :
    entries.length ≤ (encodeMembersList entries).length := by
  induction entries with
  | nil => simp [encodeMembersList]
  | cons kv tl ih =>
    cases tl with
    | nil =>
      obtain ⟨k, v⟩ := kv
      simp [encodeMembersList, encodeMember, encodeJString]
    | cons kv2 tl2 =>
      have hstep : encodeMembersList (kv :: kv2 :: tl2)
          = encodeMember kv ++ ',' :: encodeMembersList (kv2 :: tl2) := by
        simp [encodeMembersList]
      rw [hstep]
      simp only [List.length_append, List.length_cons] at ih ⊢
      omega

/-- The encoding of a non-empty member list starts with a quote. -/
lemma encodeMembersList_cons_head (kv : String × String) (tl : List (String × String)) :
    ∃ Y, encodeMembersList (kv :: tl) = '"' :: Y := by
  obtain ⟨k, v⟩ := kv
  cases tl with
  | nil => exact ⟨_, rfl⟩
  | cons kv2 tl2 => exact ⟨_, rfl⟩

/-- Decoding the file contents written for `data` (the JSON object plus
the `Encode` newline) returns the entries the encoder wrote: `data`
sorted by key. -/
lemma decode_encode (data : List (String × String)) :
    decodeJSONObject (encodeJSONObject data ++ "\n") = some (sortEntries data) := by
  have hstr : encodeJSONObject data ++ "\n"
      = String.mk (lbrace :: (encodeMembersList (sortEntries data) ++ (rbrace :: ['\n']))) := by
    have hd : (encodeJSONObject data ++ "\n").data
        = lbrace :: (encodeMembersList (sortEntries data) ++ (rbrace :: ['\n'])) := by
      rw [String.data_append]
      show jsonObjectChars data ++ ['\n'] = _
      simp [jsonObjectChars]
    rw [← hd, stringMk_data]
  rw [hstr]
  cases hs : sortEntries data with
  | nil =>
    simp only [encodeMembersList, List.nil_append]
    rfl
  | cons kv tl =>
    obtain ⟨Y, hY⟩ := encodeMembersList_cons_head kv tl
    have step2 : ∀ X : List Char,
        decodeJSONObject (String.mk (lbrace :: ('"' :: X)))
          = match parseMembers ('"' :: X).length ('"' :: X) with
            | some (l, _) => some l
            | none => none := fun X => rfl
    rw [hY]
    simp only [List.cons_append]
    rw [step2, ← List.cons_append, ← hY]
    have hfuel : (kv :: tl).length ≤ (encodeMembersList (kv :: tl) ++ (rbrace :: ['\n'])).length := by
      have hl := encodeMembersList_length (kv :: tl)
      simp only [List.length_append, List.length_cons] at hl ⊢
      omega
    rw [parseMembers_encode (kv :: tl) (by simp) _ hfuel ['\n']]

/-- The sorted entries are a permutation of the original ones. -/
lemma sortEntries_perm (l : List (String × String)) : (sortEntries l).Perm l :=
  List.mergeSort_perm l _

/-- Permuting an association list with distinct keys does not change any
lookup. -/
lemma perm_lookup_eq : ∀ {l₁ l₂ : List (String × String)}, l₁.Perm l₂ →
    (l₂.map Prod.fst).Nodup → ∀ k, l₁.lookup k = l₂.lookup k := by
  intro l₁ l₂ p
  induction p with
  | nil => intro _ _; rfl
  | cons x p ih =>
    intro nd k
    obtain ⟨x1, x2⟩ := x
    rw [List.map_cons] at nd
    have nd' := nd.of_cons
    cases hkx : k == x1 with
    | true => simp [List.lookup, hkx]
    | false => simp only [List.lookup, hkx]; exact ih nd' k
  | swap x y l =>
    intro nd k
    obtain ⟨x1, x2⟩ := x
    obtain ⟨y1, y2⟩ := y
    simp only [List.map_cons] at nd
    have hmem := (List.nodup_cons.mp nd).1
    have hxy : ¬(x1 = y1) := fun h => hmem (by rw [h]; exact List.mem_cons_self _ _)
    cases hk1 : k == x1 with
    | true =>
      cases hk2 : k == y1 with
      | true => exact absurd ((eq_of_beq hk1).symm.trans (eq_of_beq hk2)) hxy
      | false => simp [List.lookup, hk1, hk2]
    | false =>
      cases hk2 : k == y1 with
      | true => simp [List.lookup, hk1, hk2]
      | false => simp [List.lookup, hk1, hk2]
  | trans p₁ p₂ ih₁ ih₂ =>
    intro nd k
    have nd₂ := ((p₂.map Prod.fst).nodup_iff).mpr nd
    rw [ih₁ nd₂ k, ih₂ nd k]

/-- Reading back the file just written returns its contents. -/
lemma fsRead_fsWrite (fs : FileSys) (p c : String) : fsRead (fsWrite fs p c) p = some c := by
  simp [fsRead, fsWrite]

/-! ## C8 — save/load round trip -/

/-- C8.  A mapping saved with `saveVolumeData` is recovered by
`loadVolumeData` from the same directory and file name: the load
succeeds, and the loaded mapping equals the saved one — a permutation of
its entries (the encoder writes them sorted by key) with every key bound
to its original value. -/
theorem saveVolumeData_loadVolumeData_roundTrip (fs : FileSys) (dir fileName : String)
    (data : List (String × String)) (hnd : (data.map Prod.fst).Nodup) :
    ∃ out, loadVolumeData (saveVolumeData fs dir fileName data) dir fileName = some out ∧
      out.Perm data ∧ ∀ k, out.lookup k = data.lookup k := by
  refine ⟨sortEntries data, ?_, sortEntries_perm data,
    perm_lookup_eq (sortEntries_perm data) hnd⟩
  unfold loadVolumeData saveVolumeData
  rw [fsRead_fsWrite]
  exact decode_encode data

/-- Concrete volume data used by the C8 witness (deliberately not in key
order). -/
def exVolData : List (String × String) := [("driverName", "com.example.csi"), ("attachmentID", "a1")]

/-- Witness for C8: the theorem applied to `exVolData` on an empty
filesystem. -/
theorem saveVolumeData_loadVolumeData_roundTrip_witness :
    (exVolData.map Prod.fst).Nodup ∧
    ∃ out, loadVolumeData (saveVolumeData [] "/var/lib/kubelet/plugins/kubernetes.io/csi"
        "vol-data.json" exVolData) "/var/lib/kubelet/plugins/kubernetes.io/csi"
        "vol-data.json" = some out ∧
      out.Perm exVolData ∧ ∀ k, out.lookup k = exVolData.lookup k :=
  ⟨by decide, saveVolumeData_loadVolumeData_roundTrip []
    "/var/lib/kubelet/plugins/kubernetes.io/csi" "vol-data.json" exVolData (by decide)⟩

/-! ## C9 — credential lookup -/

/-- Inserting a fresh key appends it. -/
lemma mapPut_not_mem (acc : List (String × String)) (k v : String)
    (h : k ∉ acc.map Prod.fst) : mapPut acc k v = acc ++ [(k, v)] := by
  unfold mapPut
  rw [if_neg]
  intro hc
  rw [List.any_eq_true] at hc
  obtain ⟨kv, hmem, hbeq⟩ := hc
  exact h (List.mem_map.mpr ⟨kv, hmem, eq_of_beq hbeq⟩)

/-- Folding `mapPut` over entries with keys distinct from each other and
from the accumulator's appends them all, in order. -/
lemma foldl_mapPut (l : List (String × ByteSlice)) (acc : List (String × String))
    (h : (acc.map Prod.fst ++ l.map Prod.fst).Nodup) :
    l.foldl (fun a kv => mapPut a kv.1 (goStringOfBytes kv.2)) acc
      = acc ++ l.map (fun kv => (kv.1, goStringOfBytes kv.2)) := by
  induction l generalizing acc with
  | nil => simp
  | cons kv tl ih =>
    obtain ⟨k, bs⟩ := kv
    simp only [List.map_cons] at h
    have hk : k ∉ acc.map Prod.fst := by
      intro hmem
      rcases (List.nodup_append.mp h).2.2 hmem with hdis
      exact hdis (List.mem_cons_self _ _)
    rw [List.foldl_cons]
    simp only []
    rw [mapPut_not_mem acc k (goStringOfBytes bs) hk]
    rw [ih (acc ++ [(k, goStringOfBytes bs)]) ?_]
    · simp
    · simp only [List.map_append, List.map_cons, List.map_nil]
      have : acc.map Prod.fst ++ [k] ++ tl.map Prod.fst
          = acc.map Prod.fst ++ k :: tl.map Prod.fst := by
        simp
      rw [this]
      exact h

/-- C9.  `getCredentialsFromSecret` never returns a nil map: on a lookup
failure it returns the non-nil empty map together with the error, and on
success it returns the entries of the secret's `Data`, each value
converted with Go's `string([]byte)` conversion, with no error.  (The
`Data` of a Go map has distinct keys, hence the `Nodup` hypothesis.) -/
theorem getCredentialsFromSecret_characterization (getResult : Except String Secret)
    (hnd : ∀ s, getResult = .ok s → (s.data.map Prod.fst).Nodup) :
    (getCredentialsFromSecret getResult).1 ≠ none ∧
    (∀ e, getResult = .error e → getCredentialsFromSecret getResult = (some [], some e)) ∧
    (∀ s, getResult = .ok s → getCredentialsFromSecret getResult
      = (some (s.data.map (fun kv => (kv.1, goStringOfBytes kv.2))), none)) := by
  cases getResult with
  | error e =>
    refine ⟨by simp [getCredentialsFromSecret], ?_, ?_⟩
    · intro e' he
      cases he
      rfl
    · intro s hs
      cases hs
  | ok s =>
    refine ⟨by simp [getCredentialsFromSecret], ?_, ?_⟩
    · intro e' he
      cases he
    · intro s' hs
      cases hs
      have hnodup : (s.data.map Prod.fst).Nodup := hnd s rfl
      simp only [getCredentialsFromSecret]
      rw [foldl_mapPut s.data [] (by simpa using hnodup)]
      simp

/-- The secret object used by the C9 witness. -/
def exSecretObj : Secret := ⟨[("user", [97]), ("pass", [112, 64])]⟩

/-- Witness for C9: the theorem applied to a successful lookup of
`exSecretObj`. -/
theorem getCredentialsFromSecret_characterization_witness :
    getCredentialsFromSecret (.ok exSecretObj) = (some [("user", "a"), ("pass", "p@")], none) := by
  have h := (getCredentialsFromSecret_characterization (.ok exSecretObj)
    (fun s hs => by cases hs; decide)).2.2 exSecretObj rfl
  simpa using h

/-! ## C10 — block-device paths share their base -/

/-- C10.  For the same volume identifier and host, the two path helpers
return paths with the identical base — the host's volume-device plugin
directory for `csiPluginName`, joined with the identically sanitized
volume identifier — and differ only in the final path component, `dev`
versus `data`. -/
theorem volumeDeviceDirs_share_base (escapeQualifiedNameForDisk : String → String)
    (hostVolumeDevicePluginDir : String → String) (specVolID : String) :
    ∃ base, base = goPathJoin (hostVolumeDevicePluginDir csiPluginName)
        (escapeQualifiedNameForDisk specVolID) ∧
      getVolumeDevicePluginDir escapeQualifiedNameForDisk hostVolumeDevicePluginDir specVolID
        = goPathJoin base "dev" ∧
      getVolumeDeviceDataDir escapeQualifiedNameForDisk hostVolumeDevicePluginDir specVolID
        = goPathJoin base "data" :=
  ⟨_, rfl, rfl, rfl⟩

end Csi
